import Mathlib

/-!
Verification development for the columnar data codec of the milvus node SDK
(`src/milvus/grpc/Data.ts`): row-to-column encoding for insert, search request
building, and column-to-row decoding of search and query responses.

JavaScript values are embedded as the inductive type `JsVal`; JS numbers are
rationals, with `Option` wrapping where the distinction between a number and
`NaN` or `undefined` matters (`none` plays the role of the absent value).
Fallible operations return `Except MilvusError`; reaching `Except.ok` models
the point where the client hands the assembled wire request to the transport,
so an `Except.error` result is raised before any wire interaction.
-/

namespace MilvusCodec

/-- Field data types of the wire protocol, the image of the `DataTypeMap`
string-to-enum table used by `Data.ts` (schema descriptions carry the type as
a string; the codec immediately maps it through `DataTypeMap`). -/
inductive DataType where
  | BinaryVector
  | FloatVector
  | Double
  | Float
  | Int64
  | Int32
  | Int16
  | Int8
  | Bool
  | VarChar
  | JSON
deriving DecidableEq, Repr

/-- Shallow embedding of JavaScript runtime values as far as the codec
inspects them: null, undefined, booleans, (rational) numbers, strings,
arrays, plain objects, and byte buffers. A `buf text` models a Buffer holding
the UTF-8 bytes of `text`. -/
inductive JsVal where
  | null
  | undef
  | bool (b : Bool)
  | num (q : ℚ)
  | str (s : String)
  | arr (xs : List JsVal)
  | obj (fields : List (String × JsVal))
  | buf (text : String)
deriving Repr

namespace JsVal

/-- JavaScript truthiness: null, undefined, false, 0 and the empty string are
falsy; arrays, objects and buffers are always truthy. -/
def jsTruthy : JsVal → Bool
  | .null => false
  | .undef => false
  | .bool b => b
  | .num q => q ≠ 0
  | .str s => s ≠ ""
  | .arr _ => true
  | .obj _ => true
  | .buf _ => true

/-- JavaScript property access `v.length` as used by the insert length check:
arrays report their element count, strings their character count, anything
else yields undefined (`none`). -/
def jsLength : JsVal → Option ℚ
  | .arr xs => some xs.length
  | .str s => some s.length
  | _ => none

/-- Elements traversed by a `for (let val of v)` loop: array elements; for
the values the codec iterates (vector field values) only arrays occur. -/
def elements : JsVal → List JsVal
  | .arr xs => xs
  | _ => []

/-- JavaScript indexing `v[i]`: array element when in bounds, otherwise
undefined; indexing anything that is not an array also yields undefined
(strings only occur here as the empty string placeholder). -/
def jsIdx : JsVal → ℕ → JsVal
  | .arr xs, i => (xs.get? i).getD .undef
  | _, _ => .undef

end JsVal

/-- Rendering of a number inside serialized JSON text. The development only
ever serializes integral numbers, which JavaScript prints without a decimal
point; non-integral rationals keep a num/den rendering as a placeholder. -/
def numToString (q : ℚ) : String :=
  if q.den = 1 then toString q.num else toString q.num ++ "/" ++ toString q.den

mutual

/-- Model of `JSON.stringify` over embedded values (a JS builtin, not code of
this repository): undefined array elements serialize as null, and object
properties holding undefined are dropped, as in JavaScript. Buffers never
reach the serializer in the codec. -/
def jsonStringify : JsVal → String
  | .null => "null"
  | .undef => "null"
  | .bool b => if b then "true" else "false"
  | .num q => numToString q
  | .str s => "\"" ++ s ++ "\""
  | .buf s => "\"" ++ s ++ "\""
  | .arr xs => "[" ++ String.intercalate "," (stringifyElems xs) ++ "]"
  | .obj fs => "\x7b" ++ String.intercalate "," (stringifyProps fs) ++ "\x7d"

/-- Serialized forms of the elements of a JSON array. -/
def stringifyElems : List JsVal → List String
  | [] => []
  | v :: t => jsonStringify v :: stringifyElems t

/-- Serialized key-value pairs of a JSON object; properties holding an
undefined value are dropped, as JSON.stringify does. -/
def stringifyProps : List (String × JsVal) → List String
  | [] => []
  | (_, .undef) :: t => stringifyProps t
  | (k, v) :: t => ("\"" ++ k ++ "\":" ++ jsonStringify v) :: stringifyProps t

end

/-- A collection field schema as returned by describeCollection, after the
`data_type` string has been mapped through `DataTypeMap`. Type parameters
carry numeric values (the `dim` entry); `findKeyValue` looks them up. -/
structure FieldSchema where
  name : String
  data_type : DataType
  type_params : List (String × ℚ)
  is_primary_key : Bool
  autoID : Bool
deriving DecidableEq, Repr

/-- Modelled from the spec: `findKeyValue` (a shared utility imported by
`Data.ts`, not itself under analysis) returns the value stored under a key in
a key-value list, or undefined when the key is absent. `Number(undefined)` is
`NaN`, so a missing `dim` entry propagates as `none`. -/
def findKeyValue (kv : List (String × ℚ)) (k : String) : Option ℚ :=
  (kv.find? (fun p => p.1 = k)).map (fun p => p.2)

/-- Errors raised synchronously by the embedded codec paths. -/
inductive MilvusError where
  | collectionNameRequired
  | insertFieldDataRequired
  | insertWrongField (rowIndex : ℕ)
  | insertWrongDim
  | searchParamsCheck
deriving DecidableEq, Repr

/-- Consecutive chunks of `d` elements of a list, the last chunk possibly
shorter; the reference notion of un-flattening a flat column by dimension.
The list length bounds the recursion depth, keeping the recursion
structural. -/
def chunksGo (d : ℕ) : ℕ → List α → List (List α)
  | _, [] => []
  | 0, _ :: _ => []
  | fuel + 1, x :: t =>
      if d = 0 then [] else (x :: t).take d :: chunksGo d fuel ((x :: t).drop d)

/-- Consecutive chunks of `d` elements of a list, the last chunk possibly
shorter. -/
def chunksOf (d : ℕ) (xs : List α) : List (List α) :=
  chunksGo d xs.length xs

/-- The chunking recursion ignores its fuel above the list length. -/
theorem chunksGo_fuel (d : ℕ) :
    ∀ (f1 f2 : ℕ) (xs : List α), xs.length ≤ f1 → xs.length ≤ f2 →
      chunksGo d f1 xs = chunksGo d f2 xs := by
  intro f1
  induction f1 with
  | zero =>
      intro f2 xs h1 _
      cases xs with
      | nil => cases f2 <;> rfl
      | cons x t => simp at h1
  | succ g1 ih =>
      intro f2 xs h1 h2
      cases xs with
      | nil => cases f2 <;> rfl
      | cons x t =>
          cases f2 with
          | zero => simp at h2
          | succ g2 =>
              simp only [List.length_cons] at h1 h2
              simp only [chunksGo]
              by_cases hd : d = 0
              · simp [hd]
              · simp only [if_neg hd]
                have hdrop : ((x :: t).drop d).length ≤ g1 := by
                  simp only [List.length_drop, List.length_cons]
                  omega
                have hdrop2 : ((x :: t).drop d).length ≤ g2 := by
                  simp only [List.length_drop, List.length_cons]
                  omega
                rw [ih g2 _ hdrop hdrop2]

/-- Unfolding equation: chunking the empty list. -/
theorem chunksOf_nil (d : ℕ) : chunksOf d ([] : List α) = [] := rfl

/-- Unfolding equation: chunking a nonempty list peels its first `d`
elements. -/
theorem chunksOf_cons (d : ℕ) (hd : d ≠ 0) (x : α) (t : List α) :
    chunksOf d (x :: t) = (x :: t).take d :: chunksOf d ((x :: t).drop d) := by
  unfold chunksOf
  simp only [List.length_cons, chunksGo, if_neg hd]
  congr 1
  exact chunksGo_fuel d t.length ((x :: t).drop d).length _ (by simp; omega)
    (le_refl _)

/-- One accumulator per insertable field, as `insert` builds them from the
collection schema: field name, declared type, the dimension obtained as
`Number(findKeyValue(type_params, dim))` (`none` standing for the `NaN`
produced when the dim entry is missing), and the growing column value array.
A JS array that may contain holes is a `List (Option JsVal)`; `none` is a
hole. -/
structure FieldAcc where
  name : String
  type : DataType
  dim : Option ℚ
  value : List (Option JsVal)
deriving Repr

/-- The field-accumulator map `insert` creates from `collectionInfo.schema`:
fields that are primary key with autoID are excluded, every other field
starts with an empty value array. Schema field names are unique, so the
insertion-ordered JS Map is a list looked up by first match. -/
def resolveInsertFields (schema : List FieldSchema) : List FieldAcc :=
  (schema.filter (fun v => !v.is_primary_key || !v.autoID)).map
    (fun v =>
      { name := v.name
        type := v.data_type
        dim := findKeyValue v.type_params "dim"
        value := [] })

/-- JS assignment `array[i] = v`: overwrite in bounds, otherwise extend the
array, leaving holes below index `i`. -/
def setIdx (l : List (Option α)) (i : ℕ) (v : α) : List (Option α) :=
  if i < l.length then l.set i (some v)
  else l ++ List.replicate (i - l.length) none ++ [some v]

/-- JS strict equality between the two possibly-NaN numbers of the binary
dimension check: true only when both sides are numbers and equal, so a `NaN`
dimension (missing dim entry) never matches any length. -/
def lenEq : Option ℚ → Option ℚ → Prop
  | some a, some b => a = b
  | _, _ => False

instance : ∀ a b, Decidable (lenEq a b)
  | some _, some _ => by unfold lenEq; infer_instance
  | some _, none => by unfold lenEq; infer_instance
  | none, _ => by unfold lenEq; infer_instance

/-- The per-entry encode switch of `insert`: vector values push all their
elements onto the flat column, JSON values store a buffer with the JSON text
of the value (or of the empty object when the value is falsy) at the row
index, every other type stores the raw value at the row index. -/
def encodeEntry (target : FieldAcc) (i : ℕ) (val : JsVal) : List (Option JsVal) :=
  match target.type with
  | .BinaryVector => target.value ++ (val.elements.map some)
  | .FloatVector => target.value ++ (val.elements.map some)
  | .JSON =>
      setIdx target.value i
        (.buf (jsonStringify (if val.jsTruthy then val else .obj [])))
  | _ => setIdx target.value i val

/-- Replace the value array of the accumulator named `name`. -/
def updateAcc (accs : List FieldAcc) (name : String) (newValue : List (Option JsVal)) :
    List FieldAcc :=
  accs.map (fun a => if a.name = name then { a with value := newValue } else a)

/-- A row of user data: the ordered own properties of the row object. -/
abbrev Row := List (String × JsVal)

/-- The inner forEach of `insert` over one row: look each field name up in
the accumulator map (unknown name: error naming the row index), run the
binary-vector length check (`value.length !== dim / 8`: error), then encode
the entry. A thrown error aborts the whole encode. -/
def processEntries : List (String × JsVal) → ℕ → List FieldAcc →
    Except MilvusError (List FieldAcc)
  | [], _, accs => .ok accs
  | (name, val) :: rest, i, accs =>
      match accs.find? (fun a => a.name = name) with
      | none => .error (.insertWrongField i)
      | some target =>
          if target.type = DataType.BinaryVector ∧
              ¬ lenEq val.jsLength (target.dim.map (fun d => d / 8)) then
            .error .insertWrongDim
          else
            processEntries rest i (updateAcc accs name (encodeEntry target i val))

/-- The outer forEach of `insert` over the rows, threading the row index. -/
def processRows : List Row → ℕ → List FieldAcc →
    Except MilvusError (List FieldAcc)
  | [], _, accs => .ok accs
  | row :: rest, i, accs =>
      match processEntries row i accs with
      | .error e => .error e
      | .ok accs2 => processRows rest (i + 1) accs2

/-- The wire data key selected by the type switch of `insert`. The switch is
total over the image of `DataTypeMap`; its default branch (unsupported
declared type) is unreachable for the closed `DataType` enum embedded here. -/
def dataKeyOf : DataType → String
  | .FloatVector => "float_vector"
  | .BinaryVector => "binary_vector"
  | .Double => "double_data"
  | .Float => "float_data"
  | .Int64 => "long_data"
  | .Int32 => "int_data"
  | .Int16 => "int_data"
  | .Int8 => "int_data"
  | .Bool => "bool_data"
  | .VarChar => "string_data"
  | .JSON => "json_data"

/-- The logical bit of one stored vector element, for binary packing. -/
def bitOf (x : JsVal) : ℕ :=
  if x.jsTruthy then 1 else 0

/-- Modelled from the spec: `parseBinaryVectorToBytes` is a shared utility
imported by `Data.ts` and not under analysis; per the spec it bit-packs 8
logical values per output byte, most significant bit first. Callers only
pass value arrays whose length is a multiple of 8. -/
def parseBinaryVectorToBytes (v : List JsVal) : List ℕ :=
  (chunksOf 8 v).map (fun chunk => chunk.foldl (fun acc x => acc * 2 + bitOf x) 0)

/-- The payload shapes the final map of `insert` produces per field: float
vectors keep the flat value array next to the dimension, binary vectors pack
the flat values into bytes next to the dimension, scalars keep the value
array under their data key. -/
inductive WirePayload where
  | floatVector (dim : Option ℚ) (data : List (Option JsVal))
  | binaryVector (dim : Option ℚ) (bytes : List ℕ)
  | scalar (dataKey : String) (data : List (Option JsVal))
deriving Repr

/-- One entry of the `fields_data` array of the Insert wire request. -/
structure WireInsertField where
  type : DataType
  field_name : String
  payload : WirePayload
deriving Repr

/-- The Insert wire request handed to the transport. -/
structure WireInsertRequest where
  collection_name : String
  num_rows : ℕ
  fields_data : List WireInsertField
deriving Repr

/-- The wire shape of one field accumulator, per the ternary at the end of
`insert`. -/
def wireOfAcc (a : FieldAcc) : WireInsertField :=
  { type := a.type
    field_name := a.name
    payload :=
      if a.type = DataType.FloatVector then .floatVector a.dim a.value
      else if a.type = DataType.BinaryVector then
        .binaryVector a.dim
          (parseBinaryVectorToBytes (a.value.map (fun o => o.getD .undef)))
      else .scalar (dataKeyOf a.type) a.value }

/-- The encode pipeline of `Data.insert`, up to the point where the wire
request is handed to the transport (an `Except.ok` result models performing
the Insert RPC with that request; every error precedes any wire call). The
collection name check models the imported `checkCollectionName` helper
(modelled from the spec: missing required field is a validation error); the
schema stands for a successful describeCollection response. -/
def insert (collection_name : String) (schema : List FieldSchema) (rows : List Row) :
    Except MilvusError WireInsertRequest :=
  if collection_name = "" then .error .collectionNameRequired
  else if rows.isEmpty then .error .insertFieldDataRequired
  else
    match processRows rows 0 (resolveInsertFields schema) with
    | .error e => .error e
    | .ok accs =>
        .ok
          { collection_name := collection_name
            num_rows := rows.length
            fields_data := accs.map wireOfAcc }

/-! Search request building. -/

/-- State of the schema scan at the top of `search`: the vector type, the
dimension (`let dim = 0` initially; `none` stands for the `NaN` of a missing
dim entry, and binary dimensions are divided by 8), the anns field name
(`let anns_field;`, initially undefined) and the accumulated default output
fields. -/
structure SearchFieldInfo where
  vectorType : Option DataType
  dim : Option ℚ
  anns_field : Option String
  defaultOutputFields : List String
deriving Repr

/-- One iteration of the schema scan of `search`: a vector-kind field
overwrites dimension, anns field and vector type; any other field is
appended to the default output fields. -/
def classifyStep (st : SearchFieldInfo) (f : FieldSchema) : SearchFieldInfo :=
  if f.data_type = DataType.FloatVector ∨ f.data_type = DataType.BinaryVector then
    let dim0 := findKeyValue f.type_params "dim"
    { st with
      dim := if f.data_type = DataType.BinaryVector then dim0.map (fun d => d / 8)
             else dim0
      anns_field := some f.name
      vectorType := some f.data_type }
  else
    { st with defaultOutputFields := st.defaultOutputFields ++ [f.name] }

/-- The full schema scan of `search` over `collectionInfo.schema.fields`. -/
def classifyFields (fields : List FieldSchema) : SearchFieldInfo :=
  fields.foldl classifyStep
    { vectorType := none, dim := some 0, anns_field := none,
      defaultOutputFields := [] }

/-- The search-params object: either the fully formed explicit one of a
`SearchReq`, or the one `search` synthesizes from the simple shape (which
never carries a `round_decimal` property). -/
structure SearchParams where
  anns_field : Option String
  topk : ℚ
  offset : ℚ
  metric_type : String
  params : String
  round_decimal : Option ℤ
deriving DecidableEq, Repr

/-- The optional `params` object of the simple request shape: an opaque
key-value object of which the codec reads only `round_decimal`. -/
structure SimpleParams where
  round_decimal : Option ℤ
  rest : List (String × JsVal)
deriving Repr

/-- The JSON value of a simple-shape params object, for stringification into
the synthesized search params. -/
def simpleParamsVal (p : SimpleParams) : JsVal :=
  .obj ((p.round_decimal.map (fun d => ("round_decimal", JsVal.num d))).toList
          ++ p.rest)

/-- The union of the two accepted request shapes (`SearchReq` with explicit
`search_params` and `vectors`, `SearchSimpleReq` with one `vector` and
individual knobs); absent properties are `none`. -/
structure SearchRequest where
  collection_name : String
  partition_names : Option (List String)
  vectors : Option (List (List ℚ))
  vector : Option (List ℚ)
  search_params : Option SearchParams
  limit : Option ℚ
  topk : Option ℚ
  offset : Option ℚ
  metric_type : Option String
  params : Option SimpleParams
  output_fields : Option (List String)
  expr : Option String
  filter : Option String
  nq : Option ℚ
deriving Repr

/-- JS `a || b` over an optional number: undefined and 0 are falsy. -/
def jsOrQ (a : Option ℚ) (b : ℚ) : ℚ :=
  match a with
  | some x => if x = 0 then b else x
  | none => b

/-- JS `a || b` over an optional string: undefined and the empty string are
falsy. -/
def jsOrStr (a : Option String) (b : String) : String :=
  match a with
  | some s => if s = "" then b else s
  | none => b

/-- Modelled from the spec: the fixed system default for top-k
(`DEFAULT_TOPK`, an SDK constant not under analysis). -/
def DEFAULT_TOPK : ℚ := 100

/-- Modelled from the spec: the fixed system default for the metric type
(`DEFAULT_METRIC_TYPE`, an SDK constant not under analysis). -/
def DEFAULT_METRIC_TYPE : String := "L2"

/-- Modelled from the spec: `checkSearchParams` (imported helper, not under
analysis) validates the request object alone, before the collection schema
is fetched, so it can only check request properties: the collection name and
the query vector(s) must be present (missing required field is a validation
error raised before any wire interaction). -/
def checkSearchParams (req : SearchRequest) : Except MilvusError Unit :=
  if req.collection_name = "" then .error .collectionNameRequired
  else if req.vectors = none ∧ req.vector = none then .error .searchParamsCheck
  else .ok ()

/-- The search params used for the request: the explicit object when the
request carries one, otherwise the object synthesized from the simple shape
(`limit || topk || DEFAULT_TOPK`, `offset || 0`,
`metric_type || DEFAULT_METRIC_TYPE`, `JSON.stringify(params || {})`). -/
def resolvedSearchParams (info : SearchFieldInfo) (req : SearchRequest) :
    SearchParams :=
  match req.search_params with
  | some sp => sp
  | none =>
      { anns_field := info.anns_field
        topk := jsOrQ req.limit (jsOrQ req.topk DEFAULT_TOPK)
        offset := jsOrQ req.offset 0
        metric_type := jsOrStr req.metric_type DEFAULT_METRIC_TYPE
        params := jsonStringify
          (match req.params with
           | some p => simpleParamsVal p
           | none => .obj [])
        round_decimal := none }

/-- The query vectors: `(data as SearchReq).vectors ||
[(data as SearchSimpleReq).vector]` (arrays are always truthy; when both
shapes are absent the request has already been rejected by
`checkSearchParams`, so the default only keeps the function total). -/
def searchVectorsOf (req : SearchRequest) : List (List ℚ) :=
  match req.vectors with
  | some vs => vs
  | none => [req.vector.getD []]

/-- The round-decimal precision retained for the decoder:
`search_params?.round_decimal ?? params?.round_decimal` — the explicit
search-params value wins unless it is null or undefined, in which case the
simple-shape params value is used. -/
def resolveRoundDecimal (req : SearchRequest) : Option ℤ :=
  (req.search_params.bind (fun sp => sp.round_decimal)) <|>
    (req.params.bind (fun p => p.round_decimal))

/-- One packed query vector of the placeholder group: binary vectors pack to
bytes, anything else passes the floats through. Modelled from the spec:
`parseFloatVectorToBytes` is an identity pass-through on the float values. -/
inductive PlaceholderValue where
  | floatBytes (data : List ℚ)
  | binaryBytes (bytes : List ℕ)
deriving DecidableEq, Repr

/-- The single placeholder of the placeholder group: the protocol-mandated
tag `$0`, the vector type of the collection (undefined when the schema scan
found no vector field), and one packed value per query vector. The protobuf
byte encoding of the group is kept structural here. -/
structure Placeholder where
  tag : String
  type : Option DataType
  values : List PlaceholderValue
deriving DecidableEq, Repr

/-- The placeholder group `search` builds: each query vector is packed with
the binary packer exactly when the resolved vector type is BinaryVector,
with the float pass-through otherwise (also when the type is undefined). -/
def placeholderOf (vectorType : Option DataType) (vs : List (List ℚ)) :
    Placeholder :=
  { tag := "$0"
    type := vectorType
    values := vs.map (fun v =>
      if vectorType = some DataType.BinaryVector then
        .binaryBytes (parseBinaryVectorToBytes (v.map JsVal.num))
      else .floatBytes v) }

/-- Modelled from the spec: the fixed `DslType.BoolExprV1` wire tag. -/
def BoolExprV1 : ℕ := 1

/-- Modelled from the spec: `parseToKeyValue` (imported helper, not under
analysis) encodes an object as a key-value list, one entry per present
property. -/
def parseToKeyValue (sp : SearchParams) : List (String × JsVal) :=
  [("anns_field",
      match sp.anns_field with
      | some s => JsVal.str s
      | none => JsVal.undef),
   ("topk", .num sp.topk),
   ("offset", .num sp.offset),
   ("metric_type", .str sp.metric_type),
   ("params", .str sp.params)] ++
  (match sp.round_decimal with
   | some d => [("round_decimal", JsVal.num d)]
   | none => [])

/-- The Search wire request handed to the transport. -/
structure WireSearchRequest where
  collection_name : String
  partition_names : Option (List String)
  output_fields : List String
  nq : ℚ
  dsl : String
  dsl_type : ℕ
  placeholder_group : Placeholder
  search_params : List (String × JsVal)
deriving Repr

/-- The request-building half of `Data.search`, from parameter validation to
the assembled wire request (an `Except.ok` result models performing the
Search RPC; every error precedes any wire interaction). The schema stands
for a successful describeCollection response. -/
def buildSearchRequest (schema : List FieldSchema) (req : SearchRequest) :
    Except MilvusError WireSearchRequest :=
  match checkSearchParams req with
  | .error e => .error e
  | .ok _ =>
  let info := classifyFields schema
  let sp := resolvedSearchParams info req
  let vs := searchVectorsOf req
  .ok
    { collection_name := req.collection_name
      partition_names := req.partition_names
      output_fields := req.output_fields.getD info.defaultOutputFields
      nq := jsOrQ req.nq vs.length
      dsl := jsOrStr req.expr (jsOrStr req.filter "")
      dsl_type := BoolExprV1
      placeholder_group := placeholderOf info.vectorType vs
      search_params := parseToKeyValue sp }

/-! Search result decoding. -/

/-- The sub-column reached through the discriminant of a `fields_data` item:
`value.data` names the concrete data key and `value[value.data].data` is the
flat entry array. -/
structure WireSub where
  data_key : String
  data : List JsVal
deriving Repr

/-- One column of a search response: the wire type string (the switch below
compares it against the literal JSON), the field name, and
`item.field ? item[item.field] : undefined` collapsed into an option (an
empty search result makes `item.field` falsy). -/
structure WireFieldData where
  type : String
  field_name : String
  field : Option WireSub
deriving Repr

/-- `ids[ids.id_field]?.data` of a search response, the dynamic-key lookup
collapsed into the option (`none` when the id field names no data). -/
structure SearchIds where
  data : Option (List JsVal)
deriving Repr

/-- The `results` payload of a search response: per-query counts, flat
scores, optional ids and one flattened column per output field. -/
structure SearchResultData where
  topks : List ℕ
  scores : List ℚ
  ids : Option SearchIds
  fields_data : List WireFieldData
deriving Repr

/-- A preprocessed column, as the first map of the decode block produces it:
`data` is the entry array, or the empty string when the column carried no
value. -/
structure MappedField where
  type : String
  field_name : String
  data : JsVal
deriving Repr

/-- The first map of the decode block of `search`:
`value ? value[value.data].data : ''`. -/
def mapColumn (item : WireFieldData) : MappedField :=
  { type := item.type
    field_name := item.field_name
    data := match item.field with
            | some sub => .arr sub.data
            | none => .str "" }

/-- Modelled from the spec: the JSON projection branch runs
`JSON.parse(entry.toString())`, decoding the UTF-8 buffer of a JSON column
entry back into the structured value it serializes (`JSON.parse` is a JS
builtin, not repository code). In this embedding a wire JSON entry carries
the structured value its buffer encodes, and the parse is the identity. -/
def jsonParseEntry (e : JsVal) : JsVal := e

/-- The projection switch of the decode block: JSON columns parse each
entry, every other column passes the entry through. -/
def projectEntry (type : String) (e : JsVal) : JsVal :=
  if type = "JSON" then jsonParseEntry e else e

/-- Truncation toward zero, as slicing the decimal digit string does. -/
def jsTrunc (x : ℚ) : ℤ :=
  if 0 ≤ x then ⌊x⌋ else ⌈x⌉

/-- Powers of ten with an integer exponent (the precision is a digit count,
non-negative in practice). -/
def pow10 (d : ℤ) : ℚ :=
  if 0 ≤ d then (10 : ℚ) ^ d.toNat else 1 / (10 : ℚ) ^ (-d).toNat

/-- Modelled from the spec: `formatNumberPrecision` (shared utility, not
under analysis) truncates a number to the given count of decimal digits, as
slicing the digits of the decimal rendering does. -/
def formatNumberPrecision (score : ℚ) (precision : ℤ) : ℚ :=
  (jsTrunc (score * pow10 precision) : ℚ) / pow10 precision

/-- One row of a decoded search result: the formatted score, the id and one
projected value per output column. -/
structure SearchRow where
  score : ℚ
  id : JsVal
  fields : List (String × JsVal)
deriving Repr

/-- One result row of the decode block of `search`, for the entry with index
`scoreIndex` inside the query with index `index` and count `topk`: the
absolute cursor is `scoreIndex` for the first query and `scoreIndex + topk`
for every later one; the score is passed through when the round decimal is
undefined or `-1` and formatted otherwise; the id is `idData ? idData[i] :
''`; each column contributes its projected entry at the cursor. -/
def mkSearchRow (rd : Option ℤ) (fieldsData : List MappedField)
    (idData : Option (List JsVal)) (index topk scoreIndex : ℕ) (score : ℚ) :
    SearchRow :=
  let i := if index = 0 then scoreIndex else scoreIndex + topk
  { score := match rd with
             | none => score
             | some d => if d = -1 then score else formatNumberPrecision score d
    id := match idData with
          | some l => (l.get? i).getD .undef
          | none => .str ""
    fields := fieldsData.map
      (fun f => (f.field_name, projectEntry f.type (f.data.jsIdx i))) }

/-- The splicing loop of the decode block: walk `topks`, consume the next
`topk` scores from the front of the remaining scores (the mutating
`scores.splice(0, topk)` of the source), and emit one row per consumed
score. -/
def spliceGo (rd : Option ℤ) (fieldsData : List MappedField)
    (idData : Option (List JsVal)) :
    List ℕ → ℕ → List ℚ → List SearchRow
  | [], _, _ => []
  | topk :: rest, index, scores =>
      (scores.take topk).mapIdx
          (fun scoreIndex score =>
            mkSearchRow rd fieldsData idData index topk scoreIndex score)
        ++ spliceGo rd fieldsData idData rest (index + 1) (scores.drop topk)

/-- The full decode block of `search` over a non-empty `promise.results`. -/
def decodeSearchResults (rd : Option ℤ) (r : SearchResultData) :
    List SearchRow :=
  spliceGo rd (r.fields_data.map mapColumn) (r.ids.bind (fun i => i.data))
    r.topks 0 r.scores

/-- The `Data.search` pipeline: parameter validation and request building,
then (after the transport exchange, which is external) decoding of the
response results with the retained round decimal; an absent results payload
yields the empty row list. -/
def search (schema : List FieldSchema) (req : SearchRequest)
    (results : Option SearchResultData) :
    Except MilvusError (List SearchRow) :=
  match buildSearchRequest schema req with
  | .error e => .error e
  | .ok _wire =>
      .ok
        (match results with
         | some r => decodeSearchResults (resolveRoundDecimal req) r
         | none => [])

/-! Query result decoding. -/

/-- One column of a query response, already discriminated: a vector column
carries its concrete data key, the wire dimension (`none` for a missing or
non-numeric one, the `NaN` of `Number`) and the flat numeric values (the
binary path reads them through `.toJSON().data`, also a number list); a
scalar column carries its data key and entry list. -/
inductive QueryColumnData where
  | vectors (data_key : String) (dim : Option ℚ) (values : List ℚ)
  | scalars (data_key : String) (values : List JsVal)
deriving Repr

/-- One entry of the `fields_data` of a query response. -/
structure QueryFieldData where
  field_name : String
  column : QueryColumnData
deriving Repr

/-- JS `data[index].push(v)` with `if (!data[index]) data[index] = []`:
append to the sub-array at `index`, materializing it (and padding the array)
when the index is past the end. For the dimensions that occur (positive
integers) the written indices are consecutive, so padding never fires. -/
def addAt (acc : List (List ℚ)) (idx : ℕ) (v : ℚ) : List (List ℚ) :=
  if idx < acc.length then acc.set idx (acc.getD idx [] ++ [v])
  else acc ++ List.replicate (idx - acc.length) [] ++ [[v]]

/-- The un-flattening forEach of `query`: element `i` of the flat vector
column goes into sub-array `Math.floor(i / dim)`. A `NaN` dimension
(`none`) makes every index `NaN`, which JS treats as a plain property, so
the resulting array stays empty. -/
def unflatten (dim : Option ℚ) (values : List ℚ) : List (List ℚ) :=
  go values 0 []
where
  go : List ℚ → ℕ → List (List ℚ) → List (List ℚ)
    | [], _, acc => acc
    | v :: t, i, acc =>
        match dim with
        | none => go t (i + 1) acc
        | some d => go t (i + 1) (addAt acc (⌊(i : ℚ) / d⌋).toNat v)

/-- A decoded query column: the field name and its row-ordered data. -/
structure DecodedQueryColumn where
  field_name : String
  data : List JsVal
deriving Repr

/-- The per-column decode of `query`: a vector column divides the wire
dimension by 8 when its data key is not `float_vector` (binary dimensions
are in bits) and un-flattens the values by that dimension; a scalar column
parses each entry in place when its data key is `json_data` and passes the
entries through otherwise. -/
def decodeQueryColumn (item : QueryFieldData) : DecodedQueryColumn :=
  match item.column with
  | .vectors data_key dim values =>
      let d := if data_key = "float_vector" then dim
               else dim.map (fun x => x / 8)
      { field_name := item.field_name
        data := (unflatten d values).map (fun row => .arr (row.map JsVal.num)) }
  | .scalars data_key values =>
      { field_name := item.field_name
        data := if data_key = "json_data" then values.map jsonParseEntry
                else values }

/-- The transposition of `query`: the element at index `i` of every column
becomes one field of row `i` (rows are created on first touch and
union-merged: `results[i] = {...results[i], [name]: d}`). -/
def transposeColumns (cols : List DecodedQueryColumn) :
    List (List (String × JsVal)) :=
  cols.foldl
    (fun results col =>
      col.data.foldl
        (fun st d =>
          let (results, i) := st
          (if i < results.length then
             results.set i (results.getD i [] ++ [(col.field_name, d)])
           else
             results ++ List.replicate (i - results.length) [] ++
               [[(col.field_name, d)]], i + 1))
        (results, 0) |>.1)
    []

/-- The decode half of `Data.query`: per-column decoding followed by the
transposition into row objects. -/
def decodeQueryResults (fields_data : List QueryFieldData) :
    List (List (String × JsVal)) :=
  transposeColumns (fields_data.map decodeQueryColumn)

/-! Concrete inputs used by the claim theorems. -/

/-- A two-query search response: counts [2, 3], five scores, five ids and
one output column of five entries. -/
def twoQueryResults : SearchResultData :=
  { topks := [2, 3]
    scores := [1, 2, 3, 4, 5]
    ids := some ⟨some [.num 10, .num 11, .num 12, .num 13, .num 14]⟩
    fields_data := [⟨"Int64", "a",
      some ⟨"long_data", [.num 20, .num 21, .num 22, .num 23, .num 24]⟩⟩] }

/-- The numeric view of the ids of decoded rows (`none` for a non-numeric
id, such as the undefined produced by an out-of-bounds read). -/
def idNums (rows : List SearchRow) : List (Option ℚ) :=
  rows.map (fun r =>
    match r.id with
    | .num q => some q
    | _ => none)

/-- A schema with two float-vector fields (v1 before v2 in schema order). -/
def twoVectorSchema : List FieldSchema :=
  [⟨"v1", DataType.FloatVector, [("dim", 4)], false, false⟩,
   ⟨"v2", DataType.FloatVector, [("dim", 8)], false, false⟩]

/-- A schema with no vector field at all. -/
def noVectorSchema : List FieldSchema :=
  [⟨"id", DataType.Int64, [], true, false⟩,
   ⟨"age", DataType.Int32, [], false, false⟩]

/-- A simple-shape search request carrying only a collection name and one
query vector. -/
def plainSearchReq : SearchRequest :=
  { collection_name := "c"
    partition_names := none
    vectors := none
    vector := some [1, 2]
    search_params := none
    limit := none
    topk := none
    offset := none
    metric_type := none
    params := none
    output_fields := none
    expr := none
    filter := none
    nq := none }

end MilvusCodec

namespace MilvusCodec

/-- Claim C1 (code divergence): at `topks = [2, 3]` with five scores, five
ids 10..14 and one field column 20..24, the decoder reads the absolute
indices 0, 1, 3, 4, 5 — the last out of bounds — instead of the claimed
0, 1, 2, 3, 4: the produced ids are 10, 11, 13, 14, undefined and the
produced field values are 20, 21, 23, 24, undefined, because the cursor for
a later query is `scoreIndex + topk` of that query, not the running offset
of the prior counts. -/
theorem c1_splice_divergence :
    (decodeSearchResults none twoQueryResults).map (fun r => r.id)
        = [.num 10, .num 11, .num 13, .num 14, .undef]
      ∧ (decodeSearchResults none twoQueryResults).map (fun r => r.fields)
        = [[("a", .num 20)], [("a", .num 21)], [("a", .num 23)],
           [("a", .num 24)], [("a", .undef)]]
      ∧ idNums (decodeSearchResults none twoQueryResults)
        ≠ [some 10, some 11, some 12, some 13, some 14] :=
  ⟨rfl, rfl, by decide⟩

/-- Claim C2 (counterexample): with two float-vector fields v1 and v2 in
schema order, the schema scan selects v2 — the last vector field — as the
anns field, not the first vector field v1 as claimed. -/
theorem c2_first_vector_counterexample :
    (classifyFields twoVectorSchema).anns_field = some "v2"
      ∧ some "v2" ≠ some "v1" :=
  ⟨rfl, by decide⟩

/-- Whether a declared type is one of the two vector kinds. -/
def isVectorType : DataType → Bool
  | .FloatVector => true
  | .BinaryVector => true
  | _ => false

/-- The vector-kind test agrees with the disjunction the schema scan of
`search` evaluates. -/
theorem isVectorType_iff (t : DataType) :
    isVectorType t = true ↔
      (t = DataType.FloatVector ∨ t = DataType.BinaryVector) := by
  cases t <;> simp [isVectorType]

/-- Helper: the schema scan keeps the last vector-kind field and collects
the non-vector fields in order. -/
theorem classifyFields_spec (fields : List FieldSchema) :
    (classifyFields fields).anns_field
        = ((fields.filter (fun f => isVectorType f.data_type)).getLast?).map
            (fun f => f.name)
      ∧ (classifyFields fields).vectorType
        = ((fields.filter (fun f => isVectorType f.data_type)).getLast?).map
            (fun f => f.data_type)
      ∧ (classifyFields fields).defaultOutputFields
        = (fields.filter (fun f => !isVectorType f.data_type)).map
            (fun f => f.name) := by
  induction fields using List.reverseRecOn with
  | nil => exact ⟨rfl, rfl, rfl⟩
  | append_singleton l f ih =>
      obtain ⟨ih1, ih2, ih3⟩ := ih
      unfold classifyFields at ih1 ih2 ih3 ⊢
      rw [List.foldl_append, List.foldl_cons, List.foldl_nil,
        List.filter_append, List.filter_append]
      by_cases hv : isVectorType f.data_type = true
      · have hv2 : f.data_type = DataType.FloatVector ∨
            f.data_type = DataType.BinaryVector := (isVectorType_iff _).mp hv
        refine ⟨?_, ?_, ?_⟩ <;>
          simp [classifyStep, if_pos hv2, hv, ih1, ih2, ih3,
            List.getLast?_concat]
      · have hv2 : ¬(f.data_type = DataType.FloatVector ∨
            f.data_type = DataType.BinaryVector) := fun h =>
          hv ((isVectorType_iff _).mpr h)
        refine ⟨?_, ?_, ?_⟩ <;>
          simp [classifyStep, if_neg hv2, hv, ih1, ih2, ih3]

/-- Claim C2 (amended): the schema scan of `search` selects the last
vector-kind field in schema order as the anns field and vector type (so the
unique vector field when the collection has exactly one, but not the first
when it has several), and the default output fields are exactly the
non-vector fields, in schema order. -/
theorem c2_last_vector (fields : List FieldSchema) :
    (classifyFields fields).anns_field
        = ((fields.filter (fun f => isVectorType f.data_type)).getLast?).map
            (fun f => f.name)
      ∧ (classifyFields fields).vectorType
        = ((fields.filter (fun f => isVectorType f.data_type)).getLast?).map
            (fun f => f.data_type)
      ∧ (classifyFields fields).defaultOutputFields
        = (fields.filter (fun f => !isVectorType f.data_type)).map
            (fun f => f.name) :=
  classifyFields_spec fields

/-- Claim C3 (amended): when the collection schema contains no vector-kind
field, `search` raises no missing-vector-field error: for any request that
passes parameter validation the builder leaves the anns field and the
vector type undefined and still assembles the wire request (whose
placeholder carries an undefined vector type), proceeding to the wire
interaction. -/
theorem c3_no_vector_proceeds (schema : List FieldSchema) (req : SearchRequest)
    (hnv : ∀ f ∈ schema, isVectorType f.data_type = false)
    (hck : checkSearchParams req = .ok ()) :
    (classifyFields schema).anns_field = none
      ∧ (classifyFields schema).vectorType = none
      ∧ ∃ w, buildSearchRequest schema req = Except.ok w
          ∧ w.placeholder_group.type = none := by
  have hfilter : schema.filter (fun f => isVectorType f.data_type) = [] := by
    rw [List.filter_eq_nil_iff]
    intro f hf
    simp [hnv f hf]
  obtain ⟨h1, h2, -⟩ := classifyFields_spec schema
  rw [hfilter] at h1 h2
  simp only [List.getLast?_nil, Option.map_none] at h1 h2
  refine ⟨h1, h2, ?_⟩
  simp only [buildSearchRequest, hck]
  exact ⟨_, rfl, by simp [placeholderOf, h2]⟩

/-- Witness for claim C3: the concrete vector-free schema and plain request
satisfy the hypotheses, and the builder proceeds without error. -/
theorem c3_no_vector_proceeds_witness :
    (∀ f ∈ noVectorSchema, isVectorType f.data_type = false)
      ∧ checkSearchParams plainSearchReq = .ok ()
      ∧ ((classifyFields noVectorSchema).anns_field = none
          ∧ (classifyFields noVectorSchema).vectorType = none
          ∧ ∃ w, buildSearchRequest noVectorSchema plainSearchReq = Except.ok w
              ∧ w.placeholder_group.type = none) :=
  ⟨by decide, rfl,
    c3_no_vector_proceeds noVectorSchema plainSearchReq (by decide) rfl⟩

/-- The scores a queue-consuming walk of `topks` takes from the flat scores
array, in order: the reference description of which raw score feeds which
result row. -/
def consumedScores : List ℕ → List ℚ → List ℚ
  | [], _ => []
  | k :: rest, s => s.take k ++ consumedScores rest (s.drop k)

/-- The reference score formatting rule: pass the raw score through when
the round decimal is undefined or `-1`, truncate to that many decimal
digits otherwise. -/
def applyRound (rd : Option ℤ) (s : ℚ) : ℚ :=
  match rd with
  | none => s
  | some d => if d = -1 then s else formatNumberPrecision s d

/-- Helper: the scores of the rows emitted by the splicing loop are exactly
the queue-consumed raw scores, formatted. -/
theorem spliceGo_scores (rd : Option ℤ) (fd : List MappedField)
    (idD : Option (List JsVal)) :
    ∀ (topks : List ℕ) (index : ℕ) (scores : List ℚ),
      (spliceGo rd fd idD topks index scores).map (fun row => row.score)
        = (consumedScores topks scores).map (applyRound rd) := by
  intro topks
  induction topks with
  | nil => intro index scores; rfl
  | cons k rest ih =>
      intro index scores
      simp only [spliceGo, consumedScores, List.map_append, ih]
      congr 1
      rw [List.mapIdx_eq_enum_map, List.map_map]
      have : ((fun row => row.score) ∘ Function.uncurry
          (fun scoreIndex score =>
            mkSearchRow rd fd idD index k scoreIndex score))
          = (applyRound rd) ∘ Prod.snd := rfl
      rw [this, ← List.map_map, List.enum_map_snd]

/-- Claim C5: every decoded score is the corresponding raw wire score when
the resolved round decimal is undefined or `-1`, and the raw score
truncated to that many decimal digits otherwise; in particular the raw
score 3.142000047683716 with round decimal 3 formats to 3.142. -/
theorem c5_score_rounding :
    (∀ (rd : Option ℤ) (r : SearchResultData),
        (decodeSearchResults rd r).map (fun row => row.score)
          = (consumedScores r.topks r.scores).map (applyRound rd))
      ∧ (∀ s : ℚ, applyRound none s = s ∧ applyRound (some (-1)) s = s)
      ∧ formatNumberPrecision (3142000047683716 / 1000000000000000) 3
          = 3142 / 1000 := by
  refine ⟨?_, ?_, ?_⟩
  · intro rd r
    exact spliceGo_scores rd _ _ r.topks 0 r.scores
  · intro s
    exact ⟨rfl, rfl⟩
  · have h10 : pow10 3 = 1000 := by
      rw [pow10, if_pos (by norm_num)]
      rw [show Int.toNat 3 = 3 from rfl]
      norm_num
    rw [formatNumberPrecision, h10, jsTrunc,
      if_pos (by norm_num)]
    norm_num [Int.floor_eq_iff]

/-- Claim C7: the round decimal handed to the decoder resolves with
explicit-shape precedence — a defined explicit `search_params.round_decimal`
wins even when the simple-shape params also define one, and only a null or
undefined explicit value falls back to the simple-shape value; the search
pipeline hands exactly this resolved value to the result decoder. -/
theorem c7_round_decimal_precedence (req : SearchRequest) :
    (∀ sp d, req.search_params = some sp → sp.round_decimal = some d →
        resolveRoundDecimal req = some d)
      ∧ (req.search_params.bind (fun sp => sp.round_decimal) = none →
          resolveRoundDecimal req = req.params.bind (fun p => p.round_decimal))
      ∧ (∀ (schema : List FieldSchema) (r : SearchResultData)
            (w : WireSearchRequest),
          buildSearchRequest schema req = .ok w →
          search schema req (some r)
            = .ok (decodeSearchResults (resolveRoundDecimal req) r)) := by
  refine ⟨?_, ?_, ?_⟩
  · intro sp d h1 h2
    simp [resolveRoundDecimal, h1, h2]
  · intro h
    simp [resolveRoundDecimal, h]
  · intro schema r w hw
    simp [search, hw]

/-- A request defining the round decimal in both shapes: 3 in the explicit
search params and 5 in the simple-shape params. -/
def bothRoundDecimalReq : SearchRequest :=
  { collection_name := "c"
    partition_names := none
    vectors := some [[1, 2]]
    vector := none
    search_params := some ⟨some "v", 10, 0, "L2", "\x7b\x7d", some 3⟩
    limit := none
    topk := none
    offset := none
    metric_type := none
    params := some ⟨some 5, []⟩
    output_fields := none
    expr := none
    filter := none
    nq := none }

/-- Witness for claim C7: with round decimal 3 in the explicit shape and 5
in the simple shape, the resolved value is 3. -/
theorem c7_round_decimal_precedence_witness :
    bothRoundDecimalReq.search_params
        = some ⟨some "v", 10, 0, "L2", "\x7b\x7d", some 3⟩
      ∧ bothRoundDecimalReq.params.bind (fun p => p.round_decimal) = some 5
      ∧ resolveRoundDecimal bothRoundDecimalReq = some 3 :=
  ⟨rfl, rfl, (c7_round_decimal_precedence bothRoundDecimalReq).1 _ 3 rfl rfl⟩

/-- Claim C3 (counterexample): for a schema with no vector field at all the
builder raises no missing-vector-field error — with a request that passes
parameter validation it assembles the wire request, with no anns field and
an undefined placeholder vector type. -/
theorem c3_missing_vector_counterexample :
    (∃ w, buildSearchRequest noVectorSchema plainSearchReq = Except.ok w)
      ∧ (classifyFields noVectorSchema).anns_field = none
      ∧ (classifyFields noVectorSchema).vectorType = none :=
  ⟨⟨_, rfl⟩, rfl, rfl⟩

/-- Claim C4 (counterexample): a float-vector field with no dim entry does
not make schema resolution fail — insert proceeds all the way to the
assembled wire request, whose vector payload carries the non-numeric
dimension (`none`, the NaN of `Number(undefined)`); a binary-vector field
with no dim entry fails the per-row length check with the
dimension-mismatch error, not a schema error. -/
theorem c4_missing_dim_counterexample :
    insert "c" [⟨"v", DataType.FloatVector, [], false, false⟩]
        [[("v", JsVal.arr [.num 1, .num 2])]]
      = .ok ⟨"c", 1, [⟨DataType.FloatVector, "v",
          .floatVector none [some (.num 1), some (.num 2)]⟩]⟩
      ∧ insert "c" [⟨"v", DataType.BinaryVector, [], false, false⟩]
          [[("v", JsVal.arr [.num 1])]]
        = .error .insertWrongDim :=
  ⟨rfl, rfl⟩

/-- Claim C8 (counterexample): a present but falsy JSON value — the row
value `false` here — is encoded as the serialization of the empty object,
not as its own serialization `false` (`JSON.stringify(v[name] || {})`
replaces every falsy value with the empty object). -/
theorem c8_json_falsy_counterexample :
    insert "c" [⟨"j", DataType.JSON, [], false, false⟩]
        [[("j", JsVal.bool false)]]
      = .ok ⟨"c", 1, [⟨DataType.JSON, "j",
          .scalar "json_data" [some (.buf "\x7b\x7d")]⟩]⟩
      ∧ jsonStringify (JsVal.bool false) = "false"
      ∧ ("\x7b\x7d" : String) ≠ "false" :=
  ⟨rfl, rfl, by decide⟩

end MilvusCodec

namespace MilvusCodec

/-- Helper: processing rows that each carry one float-vector value appends
every value's elements to the flat column, never failing, whatever the
lengths. -/
theorem processRows_float (name : String) (dim0 : Option ℚ) :
    ∀ (xss : List (List JsVal)) (i : ℕ) (vcur : List (Option JsVal)),
      processRows (xss.map (fun xs => [(name, JsVal.arr xs)])) i
          [⟨name, DataType.FloatVector, dim0, vcur⟩]
        = .ok [⟨name, DataType.FloatVector, dim0,
            vcur ++ (xss.flatten.map some)⟩] := by
  intro xss
  induction xss with
  | nil => intro i vcur; simp [processRows]
  | cons xs rest ih =>
      intro i vcur
      have hstep : processEntries [(name, JsVal.arr xs)] i
          [⟨name, DataType.FloatVector, dim0, vcur⟩]
          = .ok [⟨name, DataType.FloatVector, dim0, vcur ++ xs.map some⟩] := by
        simp [processEntries, List.find?, lenEq, updateAcc, encodeEntry,
          JsVal.elements]
      simp only [List.map_cons, processRows, hstep, ih]
      simp [List.map_append, List.append_assoc]

/-- Claim C10: the insert encoder never raises a dimension error for a
float-vector field — rows with float-vector values of arbitrary lengths all
encode successfully, every element appended to the flat column buffer in
row order; only binary-vector values are length-checked. -/
theorem c10_float_unchecked (name : String) (tps : List (String × ℚ))
    (xss : List (List JsVal)) (h : xss ≠ []) :
    insert "c" [⟨name, DataType.FloatVector, tps, false, false⟩]
        (xss.map (fun xs => [(name, JsVal.arr xs)]))
      = .ok ⟨"c", xss.length,
          [⟨DataType.FloatVector, name,
            .floatVector (findKeyValue tps "dim") (xss.flatten.map some)⟩]⟩ := by
  have hrows : ((xss.map (fun xs => [(name, JsVal.arr xs)])).isEmpty) = false := by
    cases xss with
    | nil => exact absurd rfl h
    | cons a t => rfl
  rw [insert, if_neg (by decide), if_neg (by simp [hrows])]
  have hres : resolveInsertFields [⟨name, DataType.FloatVector, tps, false, false⟩]
      = [⟨name, DataType.FloatVector, findKeyValue tps "dim", []⟩] := by
    simp [resolveInsertFields]
  rw [hres, processRows_float]
  simp [wireOfAcc]

end MilvusCodec

namespace MilvusCodec

/-- Witness for claim C10: two float-vector rows of lengths 1 and 3 against
a declared dimension of 8 insert without error, all four elements appended. -/
theorem c10_float_unchecked_witness :
    ([[JsVal.num 1], [JsVal.num 2, JsVal.num 3, JsVal.num 4]] :
        List (List JsVal)) ≠ []
      ∧ insert "c" [⟨"v", DataType.FloatVector, [("dim", 8)], false, false⟩]
          (([[JsVal.num 1], [JsVal.num 2, JsVal.num 3, JsVal.num 4]] :
              List (List JsVal)).map (fun xs => [("v", JsVal.arr xs)]))
        = .ok ⟨"c", 2,
            [⟨DataType.FloatVector, "v",
              .floatVector (some 8)
                [some (.num 1), some (.num 2), some (.num 3), some (.num 4)]⟩]⟩ :=
  ⟨by simp,
    c10_float_unchecked "v" [("dim", 8)]
      [[JsVal.num 1], [JsVal.num 2, JsVal.num 3, JsVal.num 4]] (by simp)⟩

/-- A JS array with the trailing unset positions removed: what remains of a
sparse array after its last actually-set index. -/
def trimTrailingNones (l : List (Option α)) : List (Option α) :=
  (l.reverse.dropWhile (fun o => o.isNone)).reverse

/-- Trimming discards a trailing hole. -/
theorem trimTrailingNones_concat_none (l : List (Option α)) :
    trimTrailingNones (l ++ [none]) = trimTrailingNones l := by
  simp [trimTrailingNones, List.dropWhile_cons]

/-- Trimming keeps everything up to a set last position. -/
theorem trimTrailingNones_concat_some (l : List (Option α)) (v : α) :
    trimTrailingNones (l ++ [some v]) = l ++ [some v] := by
  simp [trimTrailingNones, List.dropWhile_cons]

/-- Trimming never lengthens the array. -/
theorem trimTrailingNones_length_le (l : List (Option α)) :
    (trimTrailingNones l).length ≤ l.length := by
  have h : (l.reverse.dropWhile (fun o => o.isNone)).length ≤ l.reverse.length :=
    (List.dropWhile_suffix (fun o : Option α => o.isNone)).sublist.length_le
  simpa [trimTrailingNones] using h

/-- Restoring the trimmed holes recovers the array. -/
theorem trimTrailingNones_append_replicate (l : List (Option α)) :
    trimTrailingNones l
        ++ List.replicate (l.length - (trimTrailingNones l).length) none = l := by
  induction l using List.reverseRecOn with
  | nil => rfl
  | append_singleton t a ih =>
      cases a with
      | some v => rw [trimTrailingNones_concat_some]; simp
      | none =>
          rw [trimTrailingNones_concat_none]
          have hle := trimTrailingNones_length_le t
          have harith : (t ++ [(none : Option α)]).length
              - (trimTrailingNones t).length
              = (t.length - (trimTrailingNones t).length) + 1 := by
            simp only [List.length_append, List.length_singleton]
            omega
          rw [harith, List.replicate_succ', ← List.append_assoc, ih]

/-- Setting the index one past the logical end of a sparse array appends the
value after the trimmed holes. -/
theorem setIdx_trim (Y : List (Option α)) (v : α) :
    setIdx (trimTrailingNones Y) Y.length v = Y ++ [some v] := by
  have hle := trimTrailingNones_length_le Y
  rw [setIdx, if_neg (by omega), trimTrailingNones_append_replicate]

/-- The row object for an optional JSON value: a one-property row when the
value is present, the empty row when the key is absent. -/
def rowOf (name : String) : Option JsVal → Row
  | some v => [(name, v)]
  | none => []

/-- The buffer the JSON encode branch stores for a present row value: the
serialized value when truthy, the serialized empty object otherwise. -/
def jsonCellVal (v : JsVal) : JsVal :=
  .buf (jsonStringify (if v.jsTruthy then v else .obj []))

/-- Helper: processing rows of one JSON field writes, for each row with the
key present, the JSON buffer of the row value at the row index, and leaves
a hole where the key is absent (trailing holes fall off the array). -/
theorem processRows_json (name : String) (dim0 : Option ℚ) :
    ∀ (vs : List (Option JsVal)) (Y : List (Option JsVal)),
      processRows (vs.map (rowOf name)) Y.length
          [⟨name, DataType.JSON, dim0, trimTrailingNones Y⟩]
        = .ok [⟨name, DataType.JSON, dim0,
            trimTrailingNones (Y ++ vs.map (fun o => o.map jsonCellVal))⟩] := by
  intro vs
  induction vs with
  | nil => intro Y; simp [processRows]
  | cons o rest ih =>
      intro Y
      cases o with
      | some v =>
          have hstep : processEntries (rowOf name (some v)) Y.length
              [⟨name, DataType.JSON, dim0, trimTrailingNones Y⟩]
              = .ok [⟨name, DataType.JSON, dim0,
                  Y ++ [some (jsonCellVal v)]⟩] := by
            simp [rowOf, processEntries, List.find?, updateAcc, encodeEntry,
              setIdx_trim, jsonCellVal]
          simp only [List.map_cons, processRows, hstep]
          have := ih (Y ++ [some (jsonCellVal v)])
          rw [trimTrailingNones_concat_some] at this
          simpa [List.append_assoc] using this
      | none =>
          simp only [List.map_cons, processRows, rowOf, processEntries]
          have := ih (Y ++ [none])
          rw [trimTrailingNones_concat_none] at this
          simpa [List.append_assoc] using this

/-- Claim C8 (amended): for a JSON-typed field, a row whose value is present
and truthy encodes as a byte buffer holding the UTF-8 JSON serialization of
the value; a row whose value is present but falsy (null, undefined, false,
0, empty string) encodes as the serialization of the empty object; a row
where the key is absent leaves a hole at that row index instead of an empty
object (and trailing holes leave the column short). -/
theorem c8_json_encoding (name : String) (vs : List (Option JsVal))
    (h : vs ≠ []) :
    insert "c" [⟨name, DataType.JSON, [], false, false⟩] (vs.map (rowOf name))
      = .ok ⟨"c", vs.length,
          [⟨DataType.JSON, name, .scalar "json_data"
              (trimTrailingNones (vs.map (fun o => o.map jsonCellVal)))⟩]⟩ := by
  have hrows : ((vs.map (rowOf name)).isEmpty) = false := by
    cases vs with
    | nil => exact absurd rfl h
    | cons a t => rfl
  rw [insert, if_neg (by decide), if_neg (by simp [hrows])]
  have hres : resolveInsertFields [⟨name, DataType.JSON, [], false, false⟩]
      = [⟨name, DataType.JSON, none, trimTrailingNones []⟩] := by
    simp [resolveInsertFields, findKeyValue, trimTrailingNones]
  rw [hres]
  have := processRows_json name none vs []
  simp only [List.length_nil, List.nil_append] at this
  rw [this]
  simp [wireOfAcc, dataKeyOf]

/-- Witness for claim C8: a truthy object value for field j encodes as the
buffer of its serialization. -/
theorem c8_json_encoding_witness :
    ([some (JsVal.obj [("a", JsVal.num 1)])] : List (Option JsVal)) ≠ []
      ∧ insert "c" [⟨"j", DataType.JSON, [], false, false⟩]
          (([some (JsVal.obj [("a", JsVal.num 1)])] :
              List (Option JsVal)).map (rowOf "j"))
        = .ok ⟨"c", 1,
            [⟨DataType.JSON, "j", .scalar "json_data"
                [some (.buf "\x7b\"a\":1\x7d")]⟩]⟩ :=
  ⟨by simp, c8_json_encoding "j" [some (JsVal.obj [("a", JsVal.num 1)])] (by simp)⟩

end MilvusCodec

namespace MilvusCodec

/-- The immutable part of a field accumulator: name, declared type and
dimension; row processing only ever rewrites the value array. -/
def accSig (a : FieldAcc) : String × DataType × Option ℚ :=
  (a.name, a.type, a.dim)

/-- Replacing one accumulator value leaves every signature unchanged. -/
theorem updateAcc_sig (accs : List FieldAcc) (n : String)
    (v : List (Option JsVal)) :
    (updateAcc accs n v).map accSig = accs.map accSig := by
  unfold updateAcc
  rw [List.map_map]
  apply List.map_congr_left
  intro a _
  by_cases h : a.name = n <;> simp [accSig, h]

/-- Name lookup respects accumulator signatures: lists with equal signature
sequences resolve any name to entries with equal signatures. -/
theorem find?_sig_congr :
    ∀ (as bs : List FieldAcc), as.map accSig = bs.map accSig →
      ∀ s, (as.find? (fun a => a.name = s)).map accSig
        = (bs.find? (fun a => a.name = s)).map accSig := by
  intro as
  induction as with
  | nil =>
      intro bs h s
      cases bs with
      | nil => rfl
      | cons b u => simp at h
  | cons a t ih =>
      intro bs h s
      cases bs with
      | nil => simp at h
      | cons b u =>
          simp only [List.map_cons, List.cons.injEq] at h
          obtain ⟨hab, htu⟩ := h
          have hname : a.name = b.name := congrArg (fun x => x.1) hab
          by_cases hs : a.name = s
          · rw [List.find?_cons_of_pos _ (by simp [hs]),
              List.find?_cons_of_pos _ (by simp [← hname, hs])]
            simp [hab]
          · rw [List.find?_cons_of_neg _ (by simp [hs]),
              List.find?_cons_of_neg _ (by simp [← hname, hs])]
            exact ih u htu s

/-- A row entry that the binary length check of `insert` rejects against a
given accumulator list: its field resolves to a binary-vector accumulator
and the value length does not strictly equal dimension over eight. -/
def offends (accs : List FieldAcc) (name : String) (val : JsVal) : Prop :=
  ∃ acc, accs.find? (fun a => a.name = name) = some acc
    ∧ acc.type = DataType.BinaryVector
    ∧ ¬ lenEq val.jsLength (acc.dim.map (fun d => d / 8))

/-- Rejection only depends on accumulator signatures. -/
theorem offends_congr (as bs : List FieldAcc)
    (h : as.map accSig = bs.map accSig) (name : String) (val : JsVal) :
    offends as name val → offends bs name val := by
  rintro ⟨acc, hf, ht, hd⟩
  have hc := find?_sig_congr as bs h name
  rw [hf] at hc
  cases hb : bs.find? (fun a => a.name = name) with
  | none => rw [hb] at hc; simp at hc
  | some b =>
      rw [hb] at hc
      simp only [Option.map_some'] at hc
      have hsig : accSig acc = accSig b := Option.some.inj hc
      have ht2 : acc.type = b.type := congrArg (fun x => x.2.1) hsig
      have hd2 : acc.dim = b.dim := congrArg (fun x => x.2.2) hsig
      exact ⟨b, hb, ht2 ▸ ht, hd2 ▸ hd⟩

/-- Resolvability of a name only depends on accumulator signatures. -/
theorem isSome_find?_congr (as bs : List FieldAcc)
    (h : as.map accSig = bs.map accSig) (s : String) :
    (as.find? (fun a => a.name = s)).isSome
      = (bs.find? (fun a => a.name = s)).isSome := by
  have hc := find?_sig_congr as bs h s
  cases hx : as.find? (fun a => a.name = s) with
  | none =>
      cases hy : bs.find? (fun a => a.name = s) with
      | none => rfl
      | some b => rw [hx, hy] at hc; simp at hc
  | some a =>
      cases hy : bs.find? (fun a => a.name = s) with
      | none => rw [hx, hy] at hc; simp at hc
      | some b => rfl

/-- Processing one row with every entry resolvable either succeeds without
touching any accumulator signature or stops at the dimension-mismatch
error. -/
theorem processEntries_ok_or_dim :
    ∀ (entries : List (String × JsVal)) (i : ℕ) (accs : List FieldAcc),
      (∀ p ∈ entries, ((accs.find? (fun a => a.name = p.1)).isSome) = true) →
      (∃ bs, processEntries entries i accs = .ok bs
          ∧ bs.map accSig = accs.map accSig)
        ∨ processEntries entries i accs = .error .insertWrongDim := by
  intro entries
  induction entries with
  | nil => intro i accs _; exact Or.inl ⟨accs, rfl, rfl⟩
  | cons p rest ih =>
      obtain ⟨name, val⟩ := p
      intro i accs h
      have hfk := h (name, val) (List.mem_cons_self _ _)
      obtain ⟨target, hf⟩ := Option.isSome_iff_exists.mp hfk
      by_cases hc : target.type = DataType.BinaryVector
          ∧ ¬ lenEq val.jsLength (target.dim.map (fun d => d / 8))
      · right; simp only [processEntries, hf, if_pos hc]
      · simp only [processEntries, hf, if_neg hc]
        have hsig := updateAcc_sig accs name (encodeEntry target i val)
        have h2 : ∀ q ∈ rest,
            (((updateAcc accs name (encodeEntry target i val)).find?
              (fun a => a.name = q.1)).isSome) = true := by
          intro q hq
          rw [isSome_find?_congr _ accs hsig]
          exact h q (List.mem_cons_of_mem _ hq)
        rcases ih i _ h2 with ⟨bs, hok, hbs⟩ | herr
        · exact Or.inl ⟨bs, hok, hbs.trans hsig⟩
        · exact Or.inr herr

/-- Processing one row that contains a rejected entry (all entries
resolvable) stops at the dimension-mismatch error. -/
theorem processEntries_offends :
    ∀ (entries : List (String × JsVal)) (i : ℕ) (accs : List FieldAcc),
      (∀ p ∈ entries, ((accs.find? (fun a => a.name = p.1)).isSome) = true) →
      (∃ p ∈ entries, offends accs p.1 p.2) →
      processEntries entries i accs = .error .insertWrongDim := by
  intro entries
  induction entries with
  | nil =>
      intro i accs _ ho
      obtain ⟨p, hp, -⟩ := ho
      exact absurd hp (List.not_mem_nil p)
  | cons p rest ih =>
      obtain ⟨name, val⟩ := p
      intro i accs hk ho
      have hfk := hk (name, val) (List.mem_cons_self _ _)
      obtain ⟨target, hf⟩ := Option.isSome_iff_exists.mp hfk
      by_cases hc : target.type = DataType.BinaryVector
          ∧ ¬ lenEq val.jsLength (target.dim.map (fun d => d / 8))
      · simp only [processEntries, hf, if_pos hc]
      · simp only [processEntries, hf, if_neg hc]
        have ho2 : ∃ q ∈ rest, offends accs q.1 q.2 := by
          rcases ho with ⟨q, hq, hoff⟩
          rcases List.mem_cons.mp hq with rfl | hmem
          · obtain ⟨acc, hfa, hta, hda⟩ := hoff
            rw [hf] at hfa
            have : acc = target := Option.some.inj hfa.symm
            subst this
            exact absurd ⟨hta, hda⟩ hc
          · exact ⟨q, hmem, hoff⟩
        have hsig := updateAcc_sig accs name (encodeEntry target i val)
        apply ih i _
        · intro q hq
          rw [isSome_find?_congr _ accs hsig]
          exact hk q (List.mem_cons_of_mem _ hq)
        · obtain ⟨q, hq, hoff⟩ := ho2
          exact ⟨q, hq, offends_congr accs _ hsig.symm q.1 q.2 hoff⟩

/-- Processing rows of which one contains a rejected entry (all entries of
all rows resolvable) stops at the dimension-mismatch error. -/
theorem processRows_offends :
    ∀ (rows : List Row) (i : ℕ) (accs : List FieldAcc),
      (∀ row ∈ rows, ∀ p ∈ row,
        ((accs.find? (fun a => a.name = p.1)).isSome) = true) →
      (∃ row ∈ rows, ∃ p ∈ row, offends accs p.1 p.2) →
      processRows rows i accs = .error .insertWrongDim := by
  intro rows
  induction rows with
  | nil =>
      intro i accs _ ho
      obtain ⟨r, hr, -⟩ := ho
      exact absurd hr (List.not_mem_nil r)
  | cons row rest ih =>
      intro i accs hk ho
      unfold processRows
      rcases ho with ⟨r, hr, p, hp, hoff⟩
      rcases List.mem_cons.mp hr with rfl | hmem
      · rw [processEntries_offends r i accs (hk r (List.mem_cons_self _ _))
          ⟨p, hp, hoff⟩]
      · rcases processEntries_ok_or_dim row i accs
            (hk row (List.mem_cons_self _ _)) with ⟨bs, hok, hsig⟩ | herr
        · rw [hok]
          apply ih (i + 1) bs
          · intro r2 hr2 q hq
            rw [isSome_find?_congr bs accs hsig]
            exact hk r2 (List.mem_cons_of_mem _ hr2) q hq
          · exact ⟨r, hmem, p, hp,
              offends_congr accs bs hsig.symm p.1 p.2 hoff⟩
        · rw [herr]

/-- Claim C6: an insert whose rows contain a binary-vector field value whose
length differs from the declared dimension over eight fails with the
dimension-mismatch validation error (given a nonempty collection name and
every row field resolvable in the schema), and the error return precedes
the Insert wire call, which only an `Except.ok` result performs. -/
theorem c6_binary_dim_mismatch (cn : String) (schema : List FieldSchema)
    (rows : List Row)
    (hcn : cn ≠ "")
    (hk : ∀ row ∈ rows, ∀ p ∈ row,
      (((resolveInsertFields schema).find? (fun a => a.name = p.1)).isSome)
        = true)
    (row : Row) (hrow : row ∈ rows)
    (name : String) (xs : List JsVal) (hmem : (name, JsVal.arr xs) ∈ row)
    (acc : FieldAcc)
    (hfind : (resolveInsertFields schema).find? (fun a => a.name = name)
      = some acc)
    (htype : acc.type = DataType.BinaryVector)
    (d : ℚ) (hdim : acc.dim = some d)
    (hlen : (xs.length : ℚ) ≠ d / 8) :
    insert cn schema rows = .error .insertWrongDim := by
  have hoff : offends (resolveInsertFields schema) name (JsVal.arr xs) := by
    refine ⟨acc, hfind, htype, ?_⟩
    rw [hdim]
    simpa [JsVal.jsLength, lenEq] using hlen
  have hrne : rows ≠ [] := List.ne_nil_of_mem hrow
  rw [insert, if_neg hcn, if_neg (by simp [List.isEmpty_iff, hrne])]
  rw [processRows_offends rows 0 _ hk
    ⟨row, hrow, (name, JsVal.arr xs), hmem, hoff⟩]

/-- The schema and rows of the C6 witness: one binary-vector field of
dimension 16, one row whose value has length 1 instead of 2. -/
def binSchema : List FieldSchema :=
  [⟨"v", DataType.BinaryVector, [("dim", 16)], false, false⟩]

/-- One row with a too-short binary vector value. -/
def binRows : List Row := [[("v", JsVal.arr [JsVal.num 1])]]

/-- Witness for claim C6: the length-1 value against dimension 16 (16 / 8 =
2) fails with the dimension-mismatch error before any wire call. -/
theorem c6_binary_dim_mismatch_witness :
    ((1 : ℚ) ≠ (16 : ℚ) / 8)
      ∧ insert "c" binSchema binRows = .error .insertWrongDim := by
  refine ⟨by norm_num, ?_⟩
  exact c6_binary_dim_mismatch "c" binSchema binRows (by decide)
    (by decide)
    [("v", JsVal.arr [JsVal.num 1])] (List.mem_cons_self _ _)
    "v" [JsVal.num 1] (List.mem_cons_self _ _)
    ⟨"v", DataType.BinaryVector, some 16, []⟩ rfl rfl
    16 rfl (by norm_num)

end MilvusCodec

namespace MilvusCodec

/-- Claim C4 (amended): schema resolution for insert raises no error when a
vector field has no dim entry — the resolved dimension is the non-numeric
`NaN` (`none`); a float-vector row then proceeds to encoding, producing a
wire payload whose dimension is that non-numeric value, while a
binary-vector row always fails the per-row length check with the
dimension-mismatch error (never a schema error), since no length strictly
equals `NaN / 8`. -/
theorem c4_missing_dim_behavior (name : String) (tps : List (String × ℚ))
    (xs ys : List JsVal) (hdim : findKeyValue tps "dim" = none) :
    insert "c" [⟨name, DataType.FloatVector, tps, false, false⟩]
        [[(name, JsVal.arr xs)]]
      = .ok ⟨"c", 1, [⟨DataType.FloatVector, name,
          .floatVector none (xs.map some)⟩]⟩
      ∧ insert "c" [⟨name, DataType.BinaryVector, tps, false, false⟩]
          [[(name, JsVal.arr ys)]]
        = .error .insertWrongDim := by
  constructor
  · rw [insert, if_neg (by decide), if_neg (by simp)]
    have hres : resolveInsertFields
        [⟨name, DataType.FloatVector, tps, false, false⟩]
        = [⟨name, DataType.FloatVector, findKeyValue tps "dim", []⟩] := by
      simp [resolveInsertFields]
    rw [hres, hdim]
    have h2 : processRows [[(name, JsVal.arr xs)]] 0
        [⟨name, DataType.FloatVector, none, []⟩]
        = .ok [⟨name, DataType.FloatVector, none, xs.map some⟩] := by
      simpa using processRows_float name none [xs] 0 []
    rw [h2]
    simp [wireOfAcc]
  · rw [insert, if_neg (by decide), if_neg (by simp)]
    have hres : resolveInsertFields
        [⟨name, DataType.BinaryVector, tps, false, false⟩]
        = [⟨name, DataType.BinaryVector, findKeyValue tps "dim", []⟩] := by
      simp [resolveInsertFields]
    rw [hres, hdim]
    simp [processRows, processEntries, List.find?, lenEq, JsVal.jsLength]

/-- Witness for claim C4: the concrete dim-less float-vector field encodes
with a `NaN` wire dimension and the dim-less binary-vector field fails with
the dimension-mismatch error. -/
theorem c4_missing_dim_behavior_witness :
    findKeyValue ([] : List (String × ℚ)) "dim" = none
      ∧ (insert "c" [⟨"v", DataType.FloatVector, [], false, false⟩]
            [[("v", JsVal.arr [JsVal.num 1, JsVal.num 2])]]
          = .ok ⟨"c", 1, [⟨DataType.FloatVector, "v",
              .floatVector none [some (.num 1), some (.num 2)]⟩]⟩
          ∧ insert "c" [⟨"v", DataType.BinaryVector, [], false, false⟩]
              [[("v", JsVal.arr [JsVal.num 1])]]
            = .error .insertWrongDim) :=
  ⟨rfl, c4_missing_dim_behavior "v" [] [JsVal.num 1, JsVal.num 2]
    [JsVal.num 1] rfl⟩

end MilvusCodec

namespace MilvusCodec

/-- JS floor of the quotient of two naturals is natural division. -/
theorem floorDiv_nat (i d : ℕ) :
    ((⌊(i : ℚ) / ((d : ℕ) : ℚ)⌋).toNat) = i / d := by
  rw [Int.floor_toNat]
  exact_mod_cast Nat.floor_div_eq_div (α := ℚ) i d

/-- Pushing into a later sub-array skips over the head. -/
theorem addAt_cons_succ (c : List ℚ) (rest : List (List ℚ)) (k : ℕ) (v : ℚ) :
    addAt (c :: rest) (k + 1) v = c :: addAt rest k v := by
  unfold addAt
  by_cases h : k < rest.length
  · rw [if_pos (by simp; omega), if_pos h]
    simp
  · rw [if_neg (by simp; omega), if_neg h]
    simp

/-- One un-flattening step on fully chunked data extends the chunking by the
new element. -/
theorem addAt_chunksOf (d : ℕ) (hd : 0 < d) :
    ∀ (n : ℕ) (xs : List ℚ), xs.length = n → ∀ v,
      addAt (chunksOf d xs) (xs.length / d) v = chunksOf d (xs ++ [v]) := by
  intro n
  induction n using Nat.strong_induction_on with
  | _ n ih =>
      intro xs hlen v
      cases xs with
      | nil =>
          rw [chunksOf_nil]
          have h1 : addAt ([] : List (List ℚ)) 0 v = [[v]] := by
            simp [addAt]
          simp only [List.length_nil, Nat.zero_div, h1, List.nil_append]
          rw [chunksOf_cons d (by omega) v []]
          rw [List.take_of_length_le (by simp; omega),
            List.drop_eq_nil_of_le (by simp; omega), chunksOf_nil]
      | cons x t =>
          by_cases hsmall : (x :: t).length < d
          · have hdiv : (x :: t).length / d = 0 := Nat.div_eq_of_lt hsmall
            have hchunk : chunksOf d (x :: t) = [x :: t] := by
              rw [chunksOf_cons d (by omega) x t,
                List.take_of_length_le (by omega),
                List.drop_eq_nil_of_le (by omega), chunksOf_nil]
            rw [hdiv, hchunk]
            have haddat : addAt [x :: t] 0 v = [(x :: t) ++ [v]] := by
              simp [addAt]
            rw [haddat]
            have hcons : (x :: t) ++ [v] = x :: (t ++ [v]) := by simp
            rw [hcons, chunksOf_cons d (by omega) x (t ++ [v]),
              List.take_of_length_le (by simp at hsmall ⊢; omega),
              List.drop_eq_nil_of_le (by simp at hsmall ⊢; omega), chunksOf_nil]
          · have hge : d ≤ (x :: t).length := by omega
            have hdiv : (x :: t).length / d = ((x :: t).length - d) / d + 1 :=
              Nat.div_eq_sub_div hd hge
            rw [hdiv, chunksOf_cons d (by omega) x t, addAt_cons_succ]
            have hdlen : ((x :: t).drop d).length = (x :: t).length - d := by
              simp
            have hih := ih (((x :: t).drop d).length)
              (by rw [hdlen]; omega) ((x :: t).drop d) rfl v
            rw [hdlen] at hih
            rw [hih]
            have hxv : (x :: t) ++ [v] = x :: (t ++ [v]) := by simp
            rw [hxv, chunksOf_cons d (by omega) x (t ++ [v])]
            have htake : (x :: (t ++ [v])).take d = (x :: t).take d := by
              rw [show x :: (t ++ [v]) = (x :: t) ++ [v] by simp]
              exact List.take_append_of_le_length hge
            have hdrop : (x :: (t ++ [v])).drop d = (x :: t).drop d ++ [v] := by
              rw [show x :: (t ++ [v]) = (x :: t) ++ [v] by simp]
              exact List.drop_append_of_le_length hge
            rw [htake, hdrop]

/-- The un-flattening loop of `query`, run after any fully chunked prefix,
chunks the whole column. -/
theorem unflatten_go_chunks (d : ℕ) (hd : 0 < d) :
    ∀ (t : List ℚ) (pre : List ℚ),
      unflatten.go (some ((d : ℕ) : ℚ)) t pre.length (chunksOf d pre)
        = chunksOf d (pre ++ t) := by
  intro t
  induction t with
  | nil => intro pre; simp [unflatten.go]
  | cons v rest ih =>
      intro pre
      simp only [unflatten.go]
      rw [floorDiv_nat pre.length d,
        addAt_chunksOf d hd pre.length pre rfl v]
      have hlen : (pre ++ [v]).length = pre.length + 1 := by simp
      have := ih (pre ++ [v])
      rw [hlen] at this
      rw [this, List.append_assoc]
      rfl

/-- The un-flattening forEach of `query` with a positive integral dimension
splits the flat column into consecutive chunks of that size. -/
theorem unflatten_chunks (d : ℕ) (hd : 0 < d) (xs : List ℚ) :
    unflatten (some ((d : ℕ) : ℚ)) xs = chunksOf d xs := by
  have h := unflatten_go_chunks d hd xs []
  simpa [unflatten] using h

/-- Claim C9: a query response vector column with flat data and dimension
`d` un-flattens into consecutive per-entity sub-arrays of `d` elements in
order; a binary column whose wire dimension is `8 * d` bits un-flattens
into sub-arrays of `d` byte values (the wire dimension divided by 8). -/
theorem c9_vector_unflatten (nm : String) (d : ℕ) (hd : 0 < d)
    (xs ys : List ℚ) :
    decodeQueryColumn ⟨nm, .vectors "float_vector" (some ((d : ℕ) : ℚ)) xs⟩
      = ⟨nm, (chunksOf d xs).map (fun row => .arr (row.map JsVal.num))⟩
    ∧ decodeQueryColumn
          ⟨nm, .vectors "binary_vector" (some (((8 * d : ℕ) : ℕ) : ℚ)) ys⟩
      = ⟨nm, (chunksOf d ys).map (fun row => .arr (row.map JsVal.num))⟩ := by
  constructor
  · simp only [decodeQueryColumn, reduceIte]
    rw [unflatten_chunks d hd xs]
  · simp only [decodeQueryColumn, reduceIte, Option.map_some']
    have hcast : (((8 * d : ℕ) : ℚ)) / 8 = ((d : ℕ) : ℚ) := by
      push_cast
      ring
    rw [hcast, if_neg (by decide : ¬("binary_vector" = "float_vector")),
      unflatten_chunks d hd ys]

/-- Witness for claim C9: dimension 4 with flat data 1..8 decodes to the
two rows [1,2,3,4] and [5,6,7,8]. -/
theorem c9_vector_unflatten_witness :
    (0 < 4)
      ∧ decodeQueryColumn ⟨"v", .vectors "float_vector" (some ((4 : ℕ) : ℚ))
            [1, 2, 3, 4, 5, 6, 7, 8]⟩
        = ⟨"v", [.arr [.num 1, .num 2, .num 3, .num 4],
            .arr [.num 5, .num 6, .num 7, .num 8]]⟩ := by
  refine ⟨by decide, ?_⟩
  have h := (c9_vector_unflatten "v" 4 (by decide)
    [1, 2, 3, 4, 5, 6, 7, 8] []).1
  exact h.trans (by rfl)

end MilvusCodec
